import Mathlib

/-!
Shallow embedding of the WAL (write-ahead log) implementation in
`src/main.rs` and verification of its specification.

The file on disk is a `List Nat` of byte values.  A `WAL` value mirrors the
Rust struct: the bytes currently in the file, the underlying file handle's
read/write cursor (`pos`), and the `offset` field tracking the next append
position.  The file is opened in append mode, so writes always land at the
end of the file regardless of `pos`.
-/

namespace WALSpec

/-- Big-endian byte encoding of a `u32` value, mirroring `u32::to_be_bytes`.
The argument is the value of the Rust `u32`, i.e. already reduced mod `2^32`. -/
def u32beBytes (n : Nat) : List Nat :=
  [n / 2 ^ 24 % 256, n / 2 ^ 16 % 256, n / 2 ^ 8 % 256, n % 256]

/-- Big-endian decoding of four bytes, mirroring `u32::from_be_bytes`. -/
def u32fromBe (b0 b1 b2 b3 : Nat) : Nat :=
  b0 * 2 ^ 24 + b1 * 2 ^ 16 + b2 * 2 ^ 8 + b3

/-- I/O errors surfaced by the embedding: the `UnexpectedEof` kind that
`read_exact` produces at a short read, and a catch-all for other failures. -/
inductive IoErr where
  | unexpectedEof
  | ioError
deriving DecidableEq, Repr

/-- The `WAL` struct: file contents, underlying file cursor, and the
`offset` field ("current write position in the file"). -/
structure WAL where
  file : List Nat
  pos : Nat
  offset : Nat
deriving DecidableEq, Repr

/-- The framed encoding written by one `append`: a 4-byte big-endian length
whose value is `data.len() as u32`, followed by the raw payload. -/
def frame (data : List Nat) : List Nat :=
  u32beBytes (data.length % 2 ^ 32) ++ data

/-- `WAL::open` on a file currently holding `bytes`: `seek(SeekFrom::End(0))`
returns the file length, which becomes both the cursor and the offset. -/
def WAL.openFile (bytes : List Nat) : WAL :=
  ⟨bytes, bytes.length, bytes.length⟩

/-- The three fallible I/O steps inside `WAL::append`, in program order:
`write_all` of the length bytes, `write_all` of the payload, `sync_all`. -/
inductive Step where
  | writeLen
  | writeData
  | sync
deriving DecidableEq, Repr

/-- Outcome of the I/O performed by one `append` call: either every step
succeeds, or step `s` is the first to fail after writing `k` bytes of its
buffer (`sync_all` writes nothing, so `k` is ignored there). -/
inductive AppendOutcome where
  | ok
  | failAt (s : Step) (k : Nat)
deriving DecidableEq, Repr

/-- `WAL::append` under a given I/O outcome.  The file is in append mode, so
every write lands at the current end of file.  On success the offset field
is advanced by `4 + data.len()` (u64 arithmetic) and the call returns the
offset the record was written at; on any failure the `?` operator returns
the error before the offset update is reached. -/
def WAL.appendWith (w : WAL) (data : List Nat) (o : AppendOutcome) :
    WAL × Except IoErr Nat :=
  match o with
  | .ok =>
      let f := w.file ++ frame data
      (⟨f, f.length, (w.offset + 4 + data.length) % 2 ^ 64⟩, .ok w.offset)
  | .failAt .writeLen k =>
      let f := w.file ++ (u32beBytes (data.length % 2 ^ 32)).take k
      (⟨f, f.length, w.offset⟩, .error .ioError)
  | .failAt .writeData k =>
      let f := w.file ++ u32beBytes (data.length % 2 ^ 32) ++ data.take k
      (⟨f, f.length, w.offset⟩, .error .ioError)
  | .failAt .sync _ =>
      let f := w.file ++ frame data
      (⟨f, f.length, w.offset⟩, .error .ioError)

/-- `WAL::append` when all I/O succeeds. -/
def WAL.append (w : WAL) (data : List Nat) : WAL × Except IoErr Nat :=
  w.appendWith data .ok

/-- The scan loop of `WAL::read_all`, operating on the remaining bytes.
`read_exact` of the 4-byte length hits `UnexpectedEof` when fewer than 4
bytes remain, which breaks the loop; `read_exact` of the payload hits
`UnexpectedEof` when fewer than the decoded length remain, which the code
propagates with `?` as an error. -/
def readLoop : List Nat → Except IoErr (List (List Nat))
  | b0 :: b1 :: b2 :: b3 :: rest =>
      let len := u32fromBe b0 b1 b2 b3
      if rest.length < len then .error .unexpectedEof
      else
        match readLoop (rest.drop len) with
        | .ok es => .ok (rest.take len :: es)
        | .error e => .error e
  | _ => .ok []
termination_by bytes => bytes.length
decreasing_by simp only [List.length_drop, List.length_cons]; omega

/-- `WAL::read_all`: seeks to the start of the file, scans every record, and
leaves the file cursor at end of file (every break or error path has consumed
all remaining bytes).  The `offset` field and the file bytes are untouched. -/
def WAL.read_all (w : WAL) : WAL × Except IoErr (List (List Nat)) :=
  (⟨w.file, w.file.length, w.offset⟩, readLoop w.file)

/-- `WAL::truncate`: `set_len(0)` empties the file without moving the file
cursor, `sync_all` flushes, and the offset field is reset to zero. -/
def WAL.truncate (w : WAL) : WAL :=
  ⟨[], w.pos, 0⟩

/-- Operations a caller can perform on an open `WAL`. -/
inductive Op where
  | append (d : List Nat)
  | readAll
  | truncate
deriving DecidableEq, Repr

/-- State transition of one operation (the result value is dropped). -/
def WAL.step (w : WAL) : Op → WAL
  | .append d => (w.append d).1
  | .readAll => w.read_all.1
  | .truncate => w.truncate

/-- Run a sequence of operations from a state. -/
def run (w : WAL) : List Op → WAL
  | [] => w
  | op :: ops => run (w.step op) ops

/-- On-disk footprint of one operation: `4 + len` for an append, 0 otherwise. -/
def Op.framedLen : Op → Nat
  | .append d => 4 + d.length
  | _ => 0

/-- Total framed size of the appends in a sequence of operations. -/
def opsFramed (ops : List Op) : Nat :=
  (ops.map Op.framedLen).sum

/-- Append a list of payloads in order, dropping the returned offsets. -/
def appendAll (w : WAL) (ps : List (List Nat)) : WAL :=
  ps.foldl (fun w d => (WAL.append w d).1) w

/-- Concatenated framed encoding of a list of payloads. -/
def frames : List (List Nat) → List Nat
  | [] => []
  | p :: ps => frame p ++ frames ps

/-! ### Basic lemmas -/

/-- Decoding inverts encoding for values representable in 32 bits. -/
lemma u32fromBe_u32beBytes (n : Nat) (h : n < 2 ^ 32) :
    u32fromBe (n / 2 ^ 24 % 256) (n / 2 ^ 16 % 256) (n / 2 ^ 8 % 256) (n % 256) = n := by
  unfold u32fromBe
  omega

lemma length_u32beBytes (n : Nat) : (u32beBytes n).length = 4 := rfl

lemma length_frame (d : List Nat) : (frame d).length = 4 + d.length := by
  simp [frame, u32beBytes]
  omega

/-- One-step unfolding of the scan loop at a full 4-byte length. -/
lemma readLoop_cons (b0 b1 b2 b3 : Nat) (rest : List Nat) :
    readLoop (b0 :: b1 :: b2 :: b3 :: rest) =
      if rest.length < u32fromBe b0 b1 b2 b3 then .error .unexpectedEof
      else (readLoop (rest.drop (u32fromBe b0 b1 b2 b3))).map
        ((rest.take (u32fromBe b0 b1 b2 b3)) :: ·) := by
  rw [readLoop]
  split
  · rfl
  · rcases hr : readLoop (rest.drop (u32fromBe b0 b1 b2 b3)) with e | es <;>
      simp [Except.map, hr]

/-- Fewer than 4 bytes remaining: the length read breaks the loop. -/
lemma readLoop_short (t : List Nat) (h : t.length < 4) :
    readLoop t = .ok [] := by
  match t, h with
  | [], _ => rw [readLoop] <;> simp
  | [a], _ => rw [readLoop] <;> simp
  | [a, b], _ => rw [readLoop] <;> simp
  | [a, b, c], _ => rw [readLoop] <;> simp

/-- Scanning one well-formed frame followed by anything: the record is
decoded and the scan continues on the remainder. -/
lemma readLoop_frame (p rest : List Nat) (h : p.length < 2 ^ 32) :
    readLoop (frame p ++ rest) = (readLoop rest).map (p :: ·) := by
  have hm : p.length % 2 ^ 32 = p.length := Nat.mod_eq_of_lt h
  have hf : frame p ++ rest = p.length / 2 ^ 24 % 256 :: p.length / 2 ^ 16 % 256 ::
      p.length / 2 ^ 8 % 256 :: p.length % 256 :: (p ++ rest) := by
    simp [frame, u32beBytes]
    omega
  rw [hf, readLoop_cons, u32fromBe_u32beBytes p.length h]
  have hlen : ¬ (p ++ rest).length < p.length := by
    simp [List.length_append]
  rw [if_neg hlen, List.take_left, List.drop_left]

/-- Scanning a sequence of well-formed frames followed by anything. -/
lemma readLoop_frames (ps : List (List Nat)) (rest : List Nat)
    (h : ∀ p ∈ ps, p.length < 2 ^ 32) :
    readLoop (frames ps ++ rest) = (readLoop rest).map (ps ++ ·) := by
  induction ps with
  | nil =>
      rcases hr : readLoop rest with e | es <;> simp [frames, Except.map, hr]
  | cons p ps ih =>
      have hp : p.length < 2 ^ 32 := h p (by simp)
      have hps : ∀ q ∈ ps, q.length < 2 ^ 32 := fun q hq => h q (by simp [hq])
      rw [frames, List.append_assoc, readLoop_frame p _ hp, ih hps]
      rcases hr : readLoop rest with e | es <;> simp [Except.map, hr]

/-- Scanning exactly a sequence of well-formed frames recovers the payloads. -/
lemma readLoop_frames_ok (ps : List (List Nat))
    (h : ∀ p ∈ ps, p.length < 2 ^ 32) :
    readLoop (frames ps) = .ok ps := by
  have := readLoop_frames ps [] h
  rw [List.append_nil] at this
  rw [this, readLoop_short [] (by simp), Except.map, List.append_nil]

lemma frames_append (ps qs : List (List Nat)) :
    frames (ps ++ qs) = frames ps ++ frames qs := by
  induction ps with
  | nil => simp [frames]
  | cons p ps ih => simp [frames, ih]

/-- Appending a list of payloads writes their frames, in order, after the
existing file contents. -/
lemma appendAll_file (ps : List (List Nat)) (w : WAL) :
    (appendAll w ps).file = w.file ++ frames ps := by
  induction ps generalizing w with
  | nil => simp [appendAll, frames]
  | cons p ps ih =>
      rw [appendAll, List.foldl_cons]
      have := ih ((WAL.append w p).1)
      rw [appendAll] at this
      rw [this]
      simp [WAL.append, WAL.appendWith, frames]

/-- The offset field after a truncation-free run: the framed sizes of the
appended payloads accumulate in u64 arithmetic. -/
lemma run_offset_mod (ops : List Op) (w : WAL) (hw : w.offset < 2 ^ 64)
    (hnt : ∀ op ∈ ops, op ≠ Op.truncate) :
    (run w ops).offset = (w.offset + opsFramed ops) % 2 ^ 64 := by
  induction ops generalizing w with
  | nil =>
      simp only [run, opsFramed, List.map_nil, List.sum_nil, Nat.add_zero]
      omega
  | cons op ops ih =>
      have hnt' : ∀ o ∈ ops, o ≠ Op.truncate := fun o ho => hnt o (by simp [ho])
      rw [run]
      cases op with
      | append d =>
          have hstep : (w.step (Op.append d)).offset =
              (w.offset + (4 + d.length)) % 2 ^ 64 := by
            simp [WAL.step, WAL.append, WAL.appendWith]
            ring_nf
          rw [ih _ (by rw [hstep]; exact Nat.mod_lt _ (by norm_num)) hnt', hstep,
            Nat.mod_add_mod]
          simp only [opsFramed, List.map_cons, List.sum_cons, Op.framedLen]
          omega
      | readAll =>
          rw [ih _ (by simpa [WAL.step, WAL.read_all] using hw) hnt']
          simp [WAL.step, WAL.read_all, opsFramed, Op.framedLen]
      | truncate =>
          exact absurd rfl (hnt Op.truncate (by simp))

/-- Reading back a log built by appending payloads to an empty file. -/
lemma appendAll_empty_read (ps : List (List Nat))
    (h : ∀ p ∈ ps, p.length < 2 ^ 32) :
    (appendAll (WAL.openFile []) ps).read_all.2 = Except.ok ps := by
  show readLoop (appendAll (WAL.openFile []) ps).file = Except.ok ps
  rw [appendAll_file]
  show readLoop ([] ++ frames ps) = Except.ok ps
  rw [List.nil_append, readLoop_frames_ok ps h]

/-! ### Claims -/

/-- Claim C1 (round-trip): appending byte-payloads P1..Pn in order to an
empty log and then calling `read_all` returns exactly [P1..Pn], in append
order, byte-for-byte.  The payloads satisfy the spec's representability
precondition (each shorter than 2^32 bytes). -/
theorem roundTrip (ps : List (List Nat)) (h : ∀ p ∈ ps, p.length < 2 ^ 32) :
    (appendAll (WAL.openFile []) ps).read_all.2 = Except.ok ps :=
  appendAll_empty_read ps h

/-- Witness for C1 at the concrete payload list [[1, 2], [], [3]]. -/
theorem roundTrip_witness :
    (∀ p ∈ [[1, 2], [], [3]], List.length (α := Nat) p < 2 ^ 32) ∧
    (appendAll (WAL.openFile []) [[1, 2], [], [3]]).read_all.2 =
      Except.ok [[1, 2], [], [3]] :=
  ⟨by decide, roundTrip [[1, 2], [], [3]] (by decide)⟩

/-- Counterexample for C2: the concrete file holding one well-formed record
`[42]` followed by a complete length header declaring 5 payload bytes but
only 2 present.  The claim says `read_all` returns exactly `[[42]]` with no
error; the code propagates the `UnexpectedEof` of the payload read instead. -/
theorem shortPayload_errors :
    (WAL.openFile [0, 0, 0, 1, 42, 0, 0, 0, 5, 1, 2]).read_all.2 =
      Except.error IoErr.unexpectedEof ∧
    (WAL.openFile [0, 0, 0, 1, 42, 0, 0, 0, 5, 1, 2]).read_all.2 ≠
      Except.ok [[42]] := by
  have h : readLoop [0, 0, 0, 1, 42, 0, 0, 0, 5, 1, 2] =
      Except.error IoErr.unexpectedEof := by
    rw [show ([0, 0, 0, 1, 42, 0, 0, 0, 5, 1, 2] : List Nat) =
      0 :: 0 :: 0 :: 1 :: [42, 0, 0, 0, 5, 1, 2] from rfl, readLoop_cons]
    norm_num [u32fromBe]
    rw [show ([0, 0, 0, 5, 1, 2] : List Nat) = 0 :: 0 :: 0 :: 5 :: [1, 2] from rfl,
      readLoop_cons]
    norm_num [u32fromBe, Except.map]
  exact ⟨h, by rw [show (WAL.openFile [0, 0, 0, 1, 42, 0, 0, 0, 5, 1, 2]).read_all.2 =
    readLoop [0, 0, 0, 1, 42, 0, 0, 0, 5, 1, 2] from rfl, h]; simp⟩

/-- Claim C2 as amended: a dangling partial length header (fewer than 4
bytes) after N well-formed records is tolerated and the N payloads are
returned, but a complete header followed by fewer payload bytes than it
declares makes `read_all` fail with the `UnexpectedEof` error instead of
returning the records read so far. -/
theorem truncatedTail (ps : List (List Nat)) (t : List Nat) (L : Nat)
    (d : List Nat) (h : ∀ p ∈ ps, p.length < 2 ^ 32) (ht : t.length < 4)
    (hL : L < 2 ^ 32) (hd : d.length < L) :
    (WAL.openFile (frames ps ++ t)).read_all.2 = Except.ok ps ∧
    (WAL.openFile (frames ps ++ u32beBytes L ++ d)).read_all.2 =
      Except.error IoErr.unexpectedEof := by
  constructor
  · show readLoop (frames ps ++ t) = Except.ok ps
    rw [readLoop_frames ps t h, readLoop_short t ht]
    simp [Except.map]
  · show readLoop (frames ps ++ u32beBytes L ++ d) = Except.error IoErr.unexpectedEof
    rw [List.append_assoc, readLoop_frames ps _ h]
    have hcons : u32beBytes L ++ d =
        L / 2 ^ 24 % 256 :: L / 2 ^ 16 % 256 :: L / 2 ^ 8 % 256 :: L % 256 :: d := by
      simp [u32beBytes]
    rw [hcons, readLoop_cons, u32fromBe_u32beBytes L hL, if_pos hd]
    simp [Except.map]

/-- Witness for the amended C2 at one record `[9]`, dangling header bytes
`[0, 0]`, and a complete header declaring 3 bytes with payload `[1]`. -/
theorem truncatedTail_witness :
    ((∀ p ∈ [[9]], List.length (α := Nat) p < 2 ^ 32) ∧
      ([0, 0] : List Nat).length < 4 ∧ 3 < 2 ^ 32 ∧ ([1] : List Nat).length < 3) ∧
    (WAL.openFile (frames [[9]] ++ [0, 0])).read_all.2 = Except.ok [[9]] ∧
    (WAL.openFile (frames [[9]] ++ u32beBytes 3 ++ [1])).read_all.2 =
      Except.error IoErr.unexpectedEof :=
  ⟨⟨by decide, by decide, by decide, by decide⟩,
    truncatedTail [[9]] [0, 0] 3 [1] (by decide) (by decide) (by decide) (by decide)⟩

/-- Claim C3 (durability order): when `append` returns success, every I/O
step — length bytes, then payload, then the sync — has completed (the
outcome is `ok`), the record's bytes sit at the end of the file as the
4-byte big-endian length followed by the raw payload, and the returned
offset is the position the record was written at.  A failed sync makes the
call return an error, so `append` never reports success before the sync. -/
theorem append_durability (w : WAL) (d : List Nat) (o : AppendOutcome)
    (r : Nat) (h : d.length < 2 ^ 32)
    (hok : (w.appendWith d o).2 = Except.ok r) :
    o = AppendOutcome.ok ∧
    (w.appendWith d o).1.file = w.file ++ u32beBytes d.length ++ d ∧
    r = w.offset := by
  have ho : o = AppendOutcome.ok := by
    cases o with
    | ok => rfl
    | failAt s k => cases s <;> simp [WAL.appendWith] at hok
  subst ho
  refine ⟨rfl, ?_, ?_⟩
  · show w.file ++ frame d = w.file ++ u32beBytes d.length ++ d
    unfold frame
    rw [Nat.mod_eq_of_lt h, List.append_assoc]
  · simp [WAL.appendWith] at hok
    exact hok.symm

/-- Witness for C3: a fully successful append of `[3]` to an empty log. -/
theorem append_durability_witness :
    (([3] : List Nat).length < 2 ^ 32 ∧
      ((WAL.openFile []).appendWith [3] AppendOutcome.ok).2 = Except.ok 0) ∧
    AppendOutcome.ok = AppendOutcome.ok ∧
    ((WAL.openFile []).appendWith [3] AppendOutcome.ok).1.file =
      (WAL.openFile []).file ++ u32beBytes ([3] : List Nat).length ++ [3] ∧
    0 = (WAL.openFile []).offset :=
  ⟨⟨by decide, rfl⟩,
    append_durability (WAL.openFile []) [3] AppendOutcome.ok 0 (by decide) rfl⟩

/-- Claim C4 (position/offset invariant): starting from a cursor of zero
(fresh empty file or just after a truncate), any truncation-free sequence of
operations leaves the cursor equal to the sum of `4 + len(entry)` over the
appended records; moreover each successful append returns the cursor value
before the call and advances the cursor by exactly `4 + len(payload)`. -/
theorem offset_invariant (w : WAL) (ops : List Op) (v : WAL) (d : List Nat)
    (h0 : w.offset = 0) (hnt : ∀ op ∈ ops, op ≠ Op.truncate)
    (hb : opsFramed ops < 2 ^ 64) (hv : v.offset + 4 + d.length < 2 ^ 64) :
    (run w ops).offset = opsFramed ops ∧
    (v.append d).2 = Except.ok v.offset ∧
    (v.append d).1.offset = v.offset + 4 + d.length := by
  refine ⟨?_, rfl, ?_⟩
  · rw [run_offset_mod ops w (by omega) hnt, h0, Nat.zero_add,
      Nat.mod_eq_of_lt hb]
  · show (v.offset + 4 + d.length) % 2 ^ 64 = v.offset + 4 + d.length
    exact Nat.mod_eq_of_lt hv

/-- Witness for C4: the run [append [7], read_all, append []] from an empty
log, and a single append of [1, 2] from an empty log. -/
theorem offset_invariant_witness :
    ((WAL.openFile []).offset = 0 ∧
      (∀ op ∈ [Op.append [7], Op.readAll, Op.append []], op ≠ Op.truncate) ∧
      opsFramed [Op.append [7], Op.readAll, Op.append []] < 2 ^ 64 ∧
      (WAL.openFile []).offset + 4 + ([1, 2] : List Nat).length < 2 ^ 64) ∧
    (run (WAL.openFile []) [Op.append [7], Op.readAll, Op.append []]).offset =
      opsFramed [Op.append [7], Op.readAll, Op.append []] ∧
    ((WAL.openFile []).append [1, 2]).2 = Except.ok (WAL.openFile []).offset ∧
    ((WAL.openFile []).append [1, 2]).1.offset =
      (WAL.openFile []).offset + 4 + ([1, 2] : List Nat).length :=
  ⟨⟨rfl, by decide, by decide, by decide⟩,
    offset_invariant (WAL.openFile []) [Op.append [7], Op.readAll, Op.append []]
      (WAL.openFile []) [1, 2] rfl (by decide) (by decide) (by decide)⟩

/-- Claim C5 (truncate contract and idempotence): truncate leaves the file
at zero length and the cursor at zero; truncating again changes nothing
further, and `read_all` on a truncated log returns the empty sequence. -/
theorem truncate_contract (w : WAL) :
    w.truncate.file = [] ∧ w.truncate.offset = 0 ∧
    w.truncate.truncate = w.truncate ∧
    w.truncate.read_all.2 = Except.ok [] := by
  refine ⟨rfl, rfl, rfl, ?_⟩
  show readLoop [] = Except.ok []
  exact readLoop_short [] (by simp)

/-- Claim C6 (read_all frame effect): `read_all` leaves the `offset` field
and the file bytes unchanged; an append performed right after a `read_all`
writes its frame at the end of the file and produces exactly the state and
return value it would have produced had `read_all` not been called (only
the underlying file cursor differs, which append-mode writes ignore). -/
theorem readAll_frame_effect (w : WAL) (d : List Nat) :
    w.read_all.1.offset = w.offset ∧
    w.read_all.1.file = w.file ∧
    (w.read_all.1.append d).1.file = w.file ++ frame d ∧
    (w.read_all.1.append d).1.file = (w.append d).1.file ∧
    (w.read_all.1.append d).1.offset = (w.append d).1.offset ∧
    (w.read_all.1.append d).2 = (w.append d).2 :=
  ⟨rfl, rfl, rfl, rfl, rfl, rfl⟩

/-- Claim C7 (resume-after-reopen): opening over an existing well-formed
file sets the cursor to the end of file; appending afterwards places every
new frame strictly after the pre-existing bytes, and `read_all` returns the
old records followed by the new ones, in order. -/
theorem resume_after_reopen (ps qs : List (List Nat))
    (hps : ∀ p ∈ ps, p.length < 2 ^ 32) (hqs : ∀ q ∈ qs, q.length < 2 ^ 32) :
    (WAL.openFile (frames ps)).offset = (frames ps).length ∧
    (appendAll (WAL.openFile (frames ps)) qs).file = frames ps ++ frames qs ∧
    (appendAll (WAL.openFile (frames ps)) qs).read_all.2 =
      Except.ok (ps ++ qs) := by
  refine ⟨rfl, ?_, ?_⟩
  · rw [appendAll_file]
    rfl
  · show readLoop (appendAll (WAL.openFile (frames ps)) qs).file =
      Except.ok (ps ++ qs)
    rw [appendAll_file]
    show readLoop (frames ps ++ frames qs) = Except.ok (ps ++ qs)
    rw [← frames_append, readLoop_frames_ok]
    intro p hp
    rcases List.mem_append.mp hp with hm | hm
    · exact hps p hm
    · exact hqs p hm

/-- Witness for C7 at old records [[1]] and new records [[2], []]. -/
theorem resume_after_reopen_witness :
    ((∀ p ∈ [[1]], List.length (α := Nat) p < 2 ^ 32) ∧
      (∀ q ∈ [[2], []], List.length (α := Nat) q < 2 ^ 32)) ∧
    (WAL.openFile (frames [[1]])).offset = (frames [[1]]).length ∧
    (appendAll (WAL.openFile (frames [[1]])) [[2], []]).file =
      frames [[1]] ++ frames [[2], []] ∧
    (appendAll (WAL.openFile (frames [[1]])) [[2], []]).read_all.2 =
      Except.ok ([[1]] ++ [[2], []]) :=
  ⟨⟨by decide, by decide⟩,
    resume_after_reopen [[1]] [[2], []] (by decide) (by decide)⟩

/-- Claim C8 (append error atomicity): whichever I/O step fails — the
length write, the payload write, or the sync — `append` returns the error
and the `offset` field is left exactly as it was, so the record is not
recorded as committed even though bytes may already be in the file. -/
theorem append_error_atomic (w : WAL) (d : List Nat) (s : Step) (k : Nat) :
    (w.appendWith d (AppendOutcome.failAt s k)).1.offset = w.offset ∧
    (w.appendWith d (AppendOutcome.failAt s k)).2 =
      Except.error IoErr.ioError := by
  cases s <;> exact ⟨rfl, rfl⟩

/-- Claim C9 (implicit, oversized payload length wrap): a payload of at
least 2^32 bytes is not rejected; the 4 length bytes written at the
record's offset encode `len mod 2^32` (the `as u32` cast), while the cursor
still advances by the full `4 + len`, so the on-disk length disagrees with
the actual payload length. -/
theorem oversized_wrap (w : WAL) (d : List Nat) (h : 2 ^ 32 ≤ d.length)
    (hb : w.offset + 4 + d.length < 2 ^ 64) (hfo : w.file.length = w.offset) :
    (w.append d).2 = Except.ok w.offset ∧
    (w.append d).1.file = w.file ++ u32beBytes (d.length % 2 ^ 32) ++ d ∧
    (w.append d).1.offset = w.offset + 4 + d.length ∧
    ((w.append d).1.file.drop w.offset).take 4 = u32beBytes (d.length % 2 ^ 32) ∧
    d.length % 2 ^ 32 ≠ d.length := by
  refine ⟨rfl, ?_, ?_, ?_, ?_⟩
  · show w.file ++ frame d = w.file ++ u32beBytes (d.length % 2 ^ 32) ++ d
    rw [frame, List.append_assoc]
  · show (w.offset + 4 + d.length) % 2 ^ 64 = w.offset + 4 + d.length
    exact Nat.mod_eq_of_lt hb
  · rw [← hfo]
    show ((w.file ++ frame d).drop w.file.length).take 4 =
      u32beBytes (d.length % 2 ^ 32)
    rw [List.drop_left, frame]
    conv_lhs => rw [← length_u32beBytes (d.length % 2 ^ 32)]
    rw [List.take_left]
  · have hm : d.length % 2 ^ 32 < 2 ^ 32 := Nat.mod_lt _ (by norm_num)
    omega

/-- Witness for C9: a 2^32-byte payload of zero bytes appended to an empty
log.  The witness does not evaluate the giant list; it applies the theorem
after discharging the length hypotheses with `List.length_replicate`. -/
theorem oversized_wrap_witness :
    (2 ^ 32 ≤ (List.replicate (2 ^ 32) (0 : Nat)).length ∧
      (WAL.openFile []).offset + 4 + (List.replicate (2 ^ 32) (0 : Nat)).length < 2 ^ 64 ∧
      (WAL.openFile []).file.length = (WAL.openFile []).offset) ∧
    ((WAL.openFile []).append (List.replicate (2 ^ 32) (0 : Nat))).2 =
      Except.ok (WAL.openFile []).offset ∧
    ((WAL.openFile []).append (List.replicate (2 ^ 32) (0 : Nat))).1.file =
      (WAL.openFile []).file ++
        u32beBytes ((List.replicate (2 ^ 32) (0 : Nat)).length % 2 ^ 32) ++
        List.replicate (2 ^ 32) (0 : Nat) ∧
    ((WAL.openFile []).append (List.replicate (2 ^ 32) (0 : Nat))).1.offset =
      (WAL.openFile []).offset + 4 + (List.replicate (2 ^ 32) (0 : Nat)).length ∧
    (((WAL.openFile []).append (List.replicate (2 ^ 32) (0 : Nat))).1.file.drop
        (WAL.openFile []).offset).take 4 =
      u32beBytes ((List.replicate (2 ^ 32) (0 : Nat)).length % 2 ^ 32) ∧
    (List.replicate (2 ^ 32) (0 : Nat)).length % 2 ^ 32 ≠
      (List.replicate (2 ^ 32) (0 : Nat)).length :=
  ⟨⟨by rw [List.length_replicate], by rw [List.length_replicate]; norm_num [WAL.openFile], rfl⟩,
    oversized_wrap (WAL.openFile []) (List.replicate (2 ^ 32) (0 : Nat))
      (by rw [List.length_replicate])
      (by rw [List.length_replicate]; norm_num [WAL.openFile]) rfl⟩

/-- Claim C10 (implicit, zero-length payload): appending the empty payload
succeeds, writes exactly the 4 bytes `[0, 0, 0, 0]` (a length of 0),
advances the cursor by exactly 4, and the round-trip property holds for a
log containing an empty payload at any position. -/
theorem empty_payload (w : WAL) (ps qs : List (List Nat))
    (hw : w.offset + 4 < 2 ^ 64) (hps : ∀ p ∈ ps, p.length < 2 ^ 32)
    (hqs : ∀ q ∈ qs, q.length < 2 ^ 32) :
    (w.append []).2 = Except.ok w.offset ∧
    (w.append []).1.file = w.file ++ [0, 0, 0, 0] ∧
    (w.append []).1.offset = w.offset + 4 ∧
    (appendAll (WAL.openFile []) (ps ++ [[]] ++ qs)).read_all.2 =
      Except.ok (ps ++ [[]] ++ qs) := by
  refine ⟨rfl, rfl, ?_, ?_⟩
  · show (w.offset + 4 + ([] : List Nat).length) % 2 ^ 64 = w.offset + 4
    rw [List.length_nil, Nat.add_zero]
    exact Nat.mod_eq_of_lt hw
  · refine appendAll_empty_read _ ?_
    intro p hp
    rcases List.mem_append.mp hp with hm | hm
    · rcases List.mem_append.mp hm with hm' | hm'
      · exact hps p hm'
      · rw [List.mem_singleton.mp hm']
        norm_num
    · exact hqs p hm

/-- Witness for C10: an empty payload appended between [[5]] and [[6]]. -/
theorem empty_payload_witness :
    ((WAL.openFile []).offset + 4 < 2 ^ 64 ∧
      (∀ p ∈ [[5]], List.length (α := Nat) p < 2 ^ 32) ∧
      (∀ q ∈ [[6]], List.length (α := Nat) q < 2 ^ 32)) ∧
    ((WAL.openFile []).append []).2 = Except.ok (WAL.openFile []).offset ∧
    ((WAL.openFile []).append []).1.file = (WAL.openFile []).file ++ [0, 0, 0, 0] ∧
    ((WAL.openFile []).append []).1.offset = (WAL.openFile []).offset + 4 ∧
    (appendAll (WAL.openFile []) ([[5]] ++ [[]] ++ [[6]])).read_all.2 =
      Except.ok ([[5]] ++ [[]] ++ [[6]]) :=
  ⟨⟨by norm_num [WAL.openFile], by decide, by decide⟩,
    empty_payload (WAL.openFile []) [[5]] [[6]]
      (by norm_num [WAL.openFile]) (by decide) (by decide)⟩
